import Mathlib

/-!
Verification of the Room Coordination Service implemented in `src/server.js`.

The server keeps three insertion-ordered maps (JavaScript `Map` objects):
`rooms` (room key to room state), `socketToClientMap` and `socketToRoomMap`.
A room holds `users` (socket id to member record) and `code` (the shared
buffer).  We shallowly embed the JS `Map` as an insertion-ordered association
list and each socket.io event handler as a pure function from server state
to server state paired with the list of emissions it performs.
-/

namespace RoomService

/-- Insertion-ordered association-list lookup, modelling `Map.get`. -/
def mapGet (m : List (String × α)) (k : String) : Option α :=
  (m.find? (fun p => p.1 == k)).map Prod.snd

/-- Modelling `Map.has`. -/
def mapHas (m : List (String × α)) (k : String) : Bool :=
  (m.find? (fun p => p.1 == k)).isSome

/-- Modelling `Map.set`: replace the entry in place if the key is present,
otherwise append a fresh entry (JS `Map` preserves insertion order). -/
def mapSet : List (String × α) → String → α → List (String × α)
  | [], k, v => [(k, v)]
  | p :: rest, k, v => if p.1 == k then (k, v) :: rest else p :: mapSet rest k v

/-- Modelling `Map.delete`. -/
def mapDelete (m : List (String × α)) (k : String) : List (String × α) :=
  m.filter (fun p => p.1 != k)

theorem mapGet_nil (k : String) : mapGet ([] : List (String × α)) k = none := rfl

theorem mapGet_cons (p : String × α) (m : List (String × α)) (k : String) :
    mapGet (p :: m) k = if p.1 == k then some p.2 else mapGet m k := by
  simp only [mapGet, List.find?]
  cases h : p.1 == k <;> simp [h]

theorem mapHas_eq_isSome (m : List (String × α)) (k : String) :
    mapHas m k = (mapGet m k).isSome := by
  simp [mapHas, mapGet]

theorem mem_of_mapGet_eq_some {m : List (String × α)} {k : String} {v : α}
    (h : mapGet m k = some v) : (k, v) ∈ m := by
  induction m with
  | nil => simp [mapGet] at h
  | cons p rest ih =>
    rw [mapGet_cons] at h
    by_cases hk : p.1 == k
    · simp [hk] at h
      cases p with
      | mk a b =>
        simp at hk
        simp [hk] at h
        subst hk
        subst h
        exact List.mem_cons_self _ _
    · simp [hk] at h
      right
      exact ih h

theorem mapGet_eq_none_of_not_mem {m : List (String × α)} {k : String}
    (h : ∀ p ∈ m, p.1 ≠ k) : mapGet m k = none := by
  induction m with
  | nil => rfl
  | cons p rest ih =>
    rw [mapGet_cons]
    have hp : p.1 ≠ k := h p (List.mem_cons_self _ _)
    simp [hp]
    exact ih (fun q hq => h q (List.mem_cons_of_mem _ hq))

theorem mapGet_mapSet_self (m : List (String × α)) (k : String) (v : α) :
    mapGet (mapSet m k v) k = some v := by
  induction m with
  | nil => simp [mapSet, mapGet_cons]
  | cons p rest ih =>
    by_cases hk : p.1 == k
    · simp [mapSet, hk, mapGet_cons]
    · simp [mapSet, hk, mapGet_cons, ih]

theorem mapGet_mapSet_ne (m : List (String × α)) (k k' : String) (v : α)
    (h : k ≠ k') : mapGet (mapSet m k v) k' = mapGet m k' := by
  induction m with
  | nil => simp [mapSet, mapGet_cons, mapGet_nil, h]
  | cons p rest ih =>
    by_cases hk : p.1 == k
    · have hp : p.1 = k := by simpa using hk
      simp [mapSet, hk, mapGet_cons, hp, h]
    · simp [mapSet, hk, mapGet_cons, ih]

theorem mem_mapSet {m : List (String × α)} {k : String} {v : α} {p : String × α}
    (h : p ∈ mapSet m k v) : p = (k, v) ∨ p ∈ m := by
  induction m with
  | nil => simpa [mapSet] using h
  | cons q rest ih =>
    by_cases hk : q.1 == k
    · simp [mapSet, hk] at h
      rcases h with h | h
      · left; simpa using h
      · right; exact List.mem_cons_of_mem _ h
    · simp only [mapSet, hk, if_neg] at h
      rcases List.mem_cons.mp h with h | h
      · right; exact h ▸ List.mem_cons_self _ _
      · rcases ih h with h | h
        · left; exact h
        · right; exact List.mem_cons_of_mem _ h

theorem mapSet_ne_nil (m : List (String × α)) (k : String) (v : α) :
    mapSet m k v ≠ [] := by
  cases m with
  | nil => simp [mapSet]
  | cons p rest =>
    by_cases hk : p.1 == k <;> simp [mapSet, hk]

theorem keys_mapSet (m : List (String × α)) (k : String) (v : α) :
    (mapSet m k v).map Prod.fst =
      if (m.map Prod.fst).contains k then m.map Prod.fst
      else m.map Prod.fst ++ [k] := by
  induction m with
  | nil => simp [mapSet]
  | cons p rest ih =>
    by_cases hk : p.1 == k
    · have hp : p.1 = k := by simpa using hk
      simp [mapSet, hk, hp, List.contains_cons]
    · have hp : ¬ p.1 = k := by simpa using hk
      have hkp : ¬ (k == p.1) = true := by
        simp
        intro h
        exact hp h.symm
      simp only [mapSet, if_neg hk, List.map_cons, List.contains_cons, hkp,
        Bool.false_or, ih]
      by_cases hc : (rest.map Prod.fst).contains k = true
      · rw [if_pos hc, if_pos hc]
      · rw [if_neg hc, if_neg hc, List.cons_append]

theorem mem_mapDelete {m : List (String × α)} {k : String} {p : String × α}
    (h : p ∈ mapDelete m k) : p ∈ m ∧ p.1 ≠ k := by
  simp only [mapDelete, List.mem_filter] at h
  refine ⟨h.1, ?_⟩
  have := h.2
  simpa using this

theorem mapDelete_sublist (m : List (String × α)) (k : String) :
    (mapDelete m k).Sublist m :=
  List.filter_sublist m

theorem mapGet_mapDelete_self (m : List (String × α)) (k : String) :
    mapGet (mapDelete m k) k = none := by
  apply mapGet_eq_none_of_not_mem
  intro p hp
  exact (mem_mapDelete hp).2

theorem mapDelete_mapDelete (m : List (String × α)) (k : String) :
    mapDelete (mapDelete m k) k = mapDelete m k := by
  simp [mapDelete, List.filter_filter]

theorem mapDelete_eq_self_of_not_mem {m : List (String × α)} {k : String}
    (h : ∀ p ∈ m, p.1 ≠ k) : mapDelete m k = m := by
  apply List.filter_eq_self.mpr
  intro p hp
  simpa using h p hp

/-- One member record in a room's `users` map (`server.js` lines 137-142):
the fields of the object stored by `room.users.set(socket.id, ...)`. -/
structure UserRec where
  id : String
  username : String
  peerId : Option String
  sockets : List String
deriving DecidableEq

/-- Room state (`server.js` lines 122-125): the member map and the shared
code buffer. -/
structure Room where
  users : List (String × UserRec)
  code : String
deriving DecidableEq

/-- The whole mutable server state: the three top-level maps plus, for each
socket, the list of socket.io rooms it has joined (`socket.rooms` minus the
socket's own id room), in join order. -/
structure ServerState where
  rooms : List (String × Room)
  socketToClientMap : List (String × String)
  socketToRoomMap : List (String × String)
  sioJoined : List (String × List String)
deriving DecidableEq

/-- Entry of an emitted user list (`server.js` lines 160-164). -/
structure UserEntry where
  id : String
  username : String
  peerId : Option String
deriving DecidableEq

/-- A chat message payload; `...message` spreads of the original object are
modelled by carrying all fields.  An absent or empty `timestamp` is falsy. -/
structure ChatMsg where
  msgId : String
  text : String
  username : String
  sender : String
  timestamp : String
deriving DecidableEq

/-- Payloads the server emits. -/
inductive Payload where
  | connectionEstablished (sid : String)
  | codeChange (code : String)
  | joinRejected (reason message : String)
  | userList (l : List UserEntry)
  | userJoined (username : String)
  | joinedRoom (roomId : String) (userCount : Nat) (message : String)
  | userLeft (username : String)
  | chatMessage (m : ChatMsg)
deriving DecidableEq

/-- Destination of an emission: `socket.emit` goes to one socket,
`io.to(room).emit` to every socket in the socket.io room, and
`socket.to(room).emit` to every socket in the room except the sender. -/
inductive Dest where
  | socket (sid : String)
  | room (rid : String)
  | roomExcept (rid sid : String)
deriving DecidableEq

/-- One emission performed by a handler. -/
structure Emit where
  dest : Dest
  payload : Payload
deriving DecidableEq

/-- Sockets currently in a socket.io room. -/
def roomSockets (st : ServerState) (rid : String) : List String :=
  (st.sioJoined.filter (fun p => p.2.contains rid)).map Prod.fst

/-- Whether an emission is delivered to a given socket, resolving the
socket.io destination against the state's room membership. -/
def deliversTo (st : ServerState) (e : Emit) (target : String) : Bool :=
  match e.dest with
  | Dest.socket s => s == target
  | Dest.room r => (roomSockets st r).contains target
  | Dest.roomExcept r s => (roomSockets st r).contains target && target != s

/-- Projection used when broadcasting a user list. -/
def entryOf (u : UserRec) : UserEntry :=
  ⟨u.id, u.username, u.peerId⟩

/-- Fuel-indexed helper for `jsDedupBy`; with fuel at least the list length
it computes the JS first-occurrence dedup, and it is structurally recursive
so that concrete instances evaluate inside the kernel. -/
def jsDedupByFuel (key : α → String) : Nat → List α → List α
  | _, [] => []
  | 0, l => l
  | Nat.succ n, u :: rest =>
      u :: jsDedupByFuel key n (rest.filter (fun v => !(key v == key u)))

/-- The JS idiom
`l.filter((x, i, self) => i === self.findIndex(y => key y === key x))`:
keep only the first element for each key, preserving order. -/
def jsDedupBy (key : α → String) (l : List α) : List α :=
  jsDedupByFuel key l.length l

theorem jsDedupByFuel_congr (key : α → String) :
    ∀ n m (l : List α), l.length ≤ n → l.length ≤ m →
      jsDedupByFuel key n l = jsDedupByFuel key m l := by
  intro n
  induction n with
  | zero =>
    intro m l hn hm
    have : l = [] := List.length_eq_zero.mp (Nat.le_zero.mp hn)
    subst this
    cases m <;> rfl
  | succ n ih =>
    intro m l hn hm
    cases l with
    | nil => cases m <;> rfl
    | cons u rest =>
      cases m with
      | zero =>
        exact absurd hm (by simp)
      | succ m =>
        show u :: jsDedupByFuel key n (rest.filter _)
            = u :: jsDedupByFuel key m (rest.filter _)
        congr 1
        have hlen := List.length_filter_le
          (fun v => !(key v == key u)) rest
        exact ih m _ (Nat.le_trans hlen (Nat.le_of_succ_le_succ hn))
          (Nat.le_trans hlen (Nat.le_of_succ_le_succ hm))

theorem jsDedupBy_nil (key : α → String) : jsDedupBy key [] = [] := rfl

theorem jsDedupBy_cons (key : α → String) (u : α) (rest : List α) :
    jsDedupBy key (u :: rest) =
      u :: jsDedupBy key (rest.filter (fun v => !(key v == key u))) := by
  show u :: jsDedupByFuel key rest.length (rest.filter _)
      = u :: jsDedupByFuel key (rest.filter _).length (rest.filter _)
  congr 1
  exact jsDedupByFuel_congr key _ _ _
    (List.length_filter_le _ rest) (Nat.le_refl _)

/-- Lower-casing used by the `toLowerCase()` comparisons, modelled
character by character. -/
def strLower (s : String) : String :=
  ⟨s.data.map Char.toLower⟩

/-- The username-taken scan of the `joinRoom` handler (`server.js`
lines 97-105): some current member holds the name case-insensitively
under a different id. -/
def joinTaken (st : ServerState) (sid name rid : String) : Bool :=
  match mapGet st.rooms rid with
  | some room =>
      room.users.any (fun q =>
        (strLower q.2.username == strLower name) && !(q.2.id == sid))
  | none => false

/-- Initial empty room object (`{ users: new Map(), code: '' }`). -/
def emptyRoom : Room := ⟨[], ""⟩

/-- The `joinRoom` handler (`server.js` lines 80-179). -/
def joinRoom (st : ServerState) (sid name rid : String) :
    ServerState × List Emit :=
  let st1 := { st with sioJoined := mapSet st.sioJoined sid [] }
  if joinTaken st sid name rid then
    (st1, [⟨Dest.socket sid, Payload.joinRejected "username_taken"
      ("Username \x22" ++ name ++
        "\x22 is already taken in this room. Please choose a different username.")⟩])
  else
    let room0 := (mapGet st.rooms rid).getD emptyRoom
    let st2 := { st1 with
      sioJoined := mapSet st1.sioJoined sid [rid],
      socketToRoomMap := mapSet st1.socketToRoomMap sid rid }
    let rec0 : UserRec := ⟨sid, name, none, [sid]⟩
    let room1 : Room := { room0 with users := mapSet room0.users sid rec0 }
    let st3 := { st2 with rooms := mapSet st2.rooms rid room1 }
    let ulist := (jsDedupBy (fun u => strLower u.username)
      (room1.users.map Prod.snd)).map entryOf
    (st3,
      [⟨Dest.socket sid, Payload.codeChange room1.code⟩,
       ⟨Dest.room rid, Payload.userList ulist⟩,
       ⟨Dest.roomExcept rid sid, Payload.userJoined name⟩,
       ⟨Dest.socket sid, Payload.joinedRoom rid room1.users.length
         ("You (" ++ name ++ ") have joined room " ++ rid)⟩])

/-- Joined socket.io rooms of a socket, in join order. -/
def getJoined (st : ServerState) (sid : String) : List String :=
  (mapGet st.sioJoined sid).getD []

/-- The room-lookup idiom
`socketToRoomMap.get(socket.id) || Array.from(socket.rooms)[1]`
(an empty string is falsy in JS; `socket.rooms` lists the socket's own id
first, so index 1 is the first joined room). -/
def lookupRoomId (st : ServerState) (sid : String) : Option String :=
  match mapGet st.socketToRoomMap sid with
  | some r => if r == "" then (getJoined st sid).head? else some r
  | none => (getJoined st sid).head?

/-- The `peer-id` handler (`server.js` lines 181-201). -/
def peerIdEvent (st : ServerState) (sid peer : String) :
    ServerState × List Emit :=
  match lookupRoomId st sid with
  | some rid =>
    if rid != "" && mapHas st.rooms rid then
      let room := (mapGet st.rooms rid).getD emptyRoom
      match mapGet room.users sid with
      | some u =>
        let room1 : Room :=
          { room with users := mapSet room.users sid { u with peerId := some peer } }
        let ulist := (room1.users.map Prod.snd).map entryOf
        ({ st with rooms := mapSet st.rooms rid room1 },
         [⟨Dest.room rid, Payload.userList ulist⟩])
      | none => (st, [])
    else (st, [])
  | none => (st, [])

/-- The `code-change` handler (`server.js` lines 203-215). -/
def codeChangeEvent (st : ServerState) (sid code : String) :
    ServerState × List Emit :=
  match lookupRoomId st sid with
  | some rid =>
    if rid != "" && mapHas st.rooms rid then
      let room := (mapGet st.rooms rid).getD emptyRoom
      ({ st with rooms := mapSet st.rooms rid { room with code := code } },
       [⟨Dest.roomExcept rid sid, Payload.codeChange code⟩])
    else (st, [])
  | none => (st, [])

/-- The `chat-message` handler (`server.js` lines 217-242); `now` is the
value `new Date().toISOString()` would produce. -/
def chatMessageEvent (st : ServerState) (sid : String) (m : ChatMsg)
    (now : String) : ServerState × List Emit :=
  match lookupRoomId st sid with
  | some rid =>
    if rid != "" && mapHas st.rooms rid then
      let room := (mapGet st.rooms rid).getD emptyRoom
      match mapGet room.users sid with
      | some u =>
        let m1 : ChatMsg := { m with
          username := u.username,
          sender := sid,
          timestamp := if m.timestamp == "" then now else m.timestamp }
        (st, [⟨Dest.roomExcept rid sid, Payload.chatMessage m1⟩])
      | none => (st, [])
    else (st, [])
  | none => (st, [])

/-- The member scan of the `disconnect` handler (`server.js` lines 253-269):
walk the member map in order; every record whose `sockets` array contains the
disconnected id has it spliced out; the result carries the processed map, the
last matching (id, record) pair (`userToRemove`), and whether some matching
record's socket list became empty (`removeCompletely`). -/
def discScan (sid : String) :
    List (String × UserRec) →
      List (String × UserRec) × Option (String × UserRec) × Bool
  | [] => ([], none, false)
  | q :: rest =>
    if sid ∈ q.2.sockets then
      let u1 : UserRec := { q.2 with sockets := q.2.sockets.erase sid }
      let r := discScan sid rest
      ((q.1, u1) :: r.1, some (r.2.1.getD (q.1, u1)),
        u1.sockets.isEmpty || r.2.2)
    else
      let r := discScan sid rest
      (q :: r.1, r.2.1, r.2.2)

/-- The trailing mapping cleanup of the `disconnect` handler
(`server.js` lines 311-313, plus socket.io dropping the socket from its
rooms). -/
def cleanupState (st : ServerState) (sid : String) : ServerState :=
  { st with
    socketToClientMap := mapDelete st.socketToClientMap sid,
    socketToRoomMap := mapDelete st.socketToRoomMap sid,
    sioJoined := mapDelete st.sioJoined sid }

/-- The `disconnect` handler (`server.js` lines 244-314). -/
def disconnectEvent (st : ServerState) (sid : String) :
    ServerState × List Emit :=
  let cleanup := fun (s : ServerState) => cleanupState s sid
  match mapGet st.socketToRoomMap sid with
  | some rid =>
    if rid != "" && mapHas st.rooms rid then
      let room := (mapGet st.rooms rid).getD emptyRoom
      let scan := discScan sid room.users
      match scan.2.1 with
      | some fnd =>
        let users2 := if scan.2.2 then mapDelete scan.1 fnd.1 else scan.1
        let emits1 := if scan.2.2
          then [⟨Dest.room rid, Payload.userLeft fnd.2.username⟩] else []
        let ulist := (jsDedupBy (fun u => u.username)
          (users2.map Prod.snd)).map entryOf
        let rooms1 := if users2.isEmpty then mapDelete st.rooms rid
          else mapSet st.rooms rid { room with users := users2 }
        (cleanup { st with rooms := rooms1 },
         emits1 ++ [⟨Dest.room rid, Payload.userList ulist⟩])
      | none => (cleanup st, [])
    else (cleanup st, [])
  | none => (cleanup st, [])

/-- The `requestUserList` handler (`server.js` lines 317-346). -/
def requestUserListEvent (st : ServerState) (sid rid : String) :
    ServerState × List Emit :=
  if rid != "" && mapHas st.rooms rid then
    let room := (mapGet st.rooms rid).getD emptyRoom
    let ulist := (room.users.map Prod.snd).map entryOf
    (st, [⟨Dest.socket sid, Payload.userList ulist⟩,
          ⟨Dest.room rid, Payload.userList ulist⟩])
  else
    (st, [⟨Dest.socket sid, Payload.userList []⟩])

/-- The connection handler (`server.js` lines 59-78): record the client id
and, when both query parameters are present, the room id; empty strings
model absent (falsy) query parameters. -/
def connectEvent (st : ServerState) (sid clientId roomIdQ : String) :
    ServerState × List Emit :=
  let st1 := { st with sioJoined := mapSet st.sioJoined sid [] }
  let st2 :=
    if clientId != "" then
      let stA := { st1 with
        socketToClientMap := mapSet st1.socketToClientMap sid clientId }
      if roomIdQ != "" then
        { stA with socketToRoomMap := mapSet stA.socketToRoomMap sid roomIdQ }
      else stA
    else st1
  (st2, [⟨Dest.socket sid, Payload.connectionEstablished sid⟩])

/-- Inbound events. -/
inductive Event where
  | connect (sid clientId roomIdQ : String)
  | join (sid username roomId : String)
  | peer (sid peerId : String)
  | edit (sid code : String)
  | chat (sid : String) (m : ChatMsg) (now : String)
  | reqList (sid roomId : String)
  | disc (sid : String)
deriving DecidableEq

/-- One step of the single-threaded event loop. -/
def step (st : ServerState) (e : Event) : ServerState × List Emit :=
  match e with
  | Event.connect sid c r => connectEvent st sid c r
  | Event.join sid u r => joinRoom st sid u r
  | Event.peer sid p => peerIdEvent st sid p
  | Event.edit sid c => codeChangeEvent st sid c
  | Event.chat sid m now => chatMessageEvent st sid m now
  | Event.reqList sid r => requestUserListEvent st sid r
  | Event.disc sid => disconnectEvent st sid

/-- The state at process start: all maps empty. -/
def initState : ServerState := ⟨[], [], [], []⟩

/-- State after processing a sequence of events from process start. -/
def run (es : List Event) : ServerState :=
  es.foldl (fun st e => (step st e).1) initState

/-- A state is reachable when some event sequence produces it. -/
def Reachable (st : ServerState) : Prop :=
  ∃ es : List Event, run es = st

theorem jsDedupBy_sublist (key : α → String) (l : List α) :
    (jsDedupBy key l).Sublist l := by
  generalize hn : l.length = n
  induction n using Nat.strong_induction_on generalizing l with
  | _ n ih =>
    cases l with
    | nil => simp [jsDedupBy_nil]
    | cons u rest =>
      rw [jsDedupBy_cons]
      refine List.Sublist.cons₂ u ?_
      have hf : (rest.filter (fun v => !(key v == key u))).Sublist rest :=
        List.filter_sublist rest
      refine List.Sublist.trans ?_ hf
      refine ih (rest.filter (fun v => !(key v == key u))).length ?_ _ rfl
      subst hn
      simp only [List.length_cons]
      exact Nat.lt_succ_of_le (List.length_filter_le _ _)

theorem jsDedupBy_pairwise (key : α → String) (l : List α) :
    (jsDedupBy key l).Pairwise (fun a b => key a ≠ key b) := by
  generalize hn : l.length = n
  induction n using Nat.strong_induction_on generalizing l with
  | _ n ih =>
    cases l with
    | nil => simp [jsDedupBy_nil]
    | cons u rest =>
      rw [jsDedupBy_cons]
      refine List.Pairwise.cons ?_ ?_
      · intro b hb
        have hb2 : b ∈ rest.filter (fun v => !(key v == key u)) :=
          (jsDedupBy_sublist key _).mem hb
        have hb3 := (List.mem_filter.mp hb2).2
        simp at hb3
        exact fun h => hb3 h.symm
      · refine ih (rest.filter (fun v => !(key v == key u))).length ?_ _ rfl
        subst hn
        simp only [List.length_cons]
        exact Nat.lt_succ_of_le (List.length_filter_le _ _)

theorem jsDedupBy_eq_self_aux (key : α → String) :
    ∀ n (l : List α), l.length ≤ n →
      l.Pairwise (fun a b => key a ≠ key b) → jsDedupBy key l = l := by
  intro n
  induction n with
  | zero =>
    intro l hn _
    have hl : l = [] := List.length_eq_zero.mp (Nat.le_zero.mp hn)
    subst hl
    rfl
  | succ n ih =>
    intro l hn h
    cases l with
    | nil => rfl
    | cons u rest =>
      rw [jsDedupBy_cons]
      have hrest : rest.filter (fun v => !(key v == key u)) = rest := by
        apply List.filter_eq_self.mpr
        intro b hb
        have hbu := (List.pairwise_cons.mp h).1 b hb
        simp
        exact fun hb2 => (hbu hb2.symm).elim
      rw [hrest]
      congr 1
      refine ih rest ?_ (List.pairwise_cons.mp h).2
      exact Nat.le_of_succ_le_succ (by simpa using hn)

theorem jsDedupBy_eq_self {key : α → String} {l : List α}
    (h : l.Pairwise (fun a b => key a ≠ key b)) : jsDedupBy key l = l :=
  jsDedupBy_eq_self_aux key l.length l (Nat.le_refl _) h

theorem discScan_nomatch {sid : String} {users : List (String × UserRec)}
    (h : ∀ q ∈ users, sid ∉ q.2.sockets) :
    discScan sid users = (users, none, false) := by
  induction users with
  | nil => rfl
  | cons q rest ih =>
    have hq : sid ∉ q.2.sockets := h q (List.mem_cons_self _ _)
    rw [discScan, if_neg hq, ih (fun p hp => h p (List.mem_cons_of_mem _ hp))]

theorem discScan_of_key_mem {sid : String} {users : List (String × UserRec)}
    {u : UserRec}
    (hWF : ∀ q ∈ users, q.2.sockets = [q.1])
    (hnodup : (users.map Prod.fst).Nodup)
    (hmem : (sid, u) ∈ users) :
    discScan sid users =
      (users.map (fun q => if q.1 == sid then (q.1, { q.2 with sockets := [] }) else q),
       some (sid, { u with sockets := [] }), true) := by
  induction users with
  | nil => cases hmem
  | cons q rest ih =>
    rcases List.mem_cons.mp hmem with hq | hq
    · have hqs : q.2.sockets = [q.1] := hWF q (List.mem_cons_self _ _)
      have hq1 : q.1 = sid := by rw [← hq]
      have hq2 : q.2 = u := by rw [← hq]
      have hin : sid ∈ q.2.sockets := by rw [hqs, hq1]; exact List.mem_singleton.mpr rfl
      have hrest : ∀ p ∈ rest, sid ∉ p.2.sockets := by
        intro p hp
        have hps : p.2.sockets = [p.1] := hWF p (List.mem_cons_of_mem _ hp)
        have hpk : p.1 ≠ sid := by
          intro hcontra
          have : q.1 ∈ rest.map Prod.fst := by
            rw [hq1, ← hcontra]
            exact List.mem_map_of_mem Prod.fst hp
          exact (List.nodup_cons.mp (by simpa using hnodup)).1 this
        rw [hps]
        simp [Ne.symm hpk]
      rw [discScan, if_pos hin, discScan_nomatch hrest]
      have hrestmap :
          rest.map (fun p => if p.1 == sid then (p.1, { p.2 with sockets := [] }) else p)
            = rest := by
        have hcg :
            rest.map (fun p => if p.1 == sid then (p.1, { p.2 with sockets := [] }) else p)
              = rest.map id := by
          apply List.map_congr_left
          intro p hp
          have hpk : p.1 ≠ sid := by
            intro hcontra
            have : q.1 ∈ rest.map Prod.fst := by
              rw [hq1, ← hcontra]
              exact List.mem_map_of_mem Prod.fst hp
            exact (List.nodup_cons.mp (by simpa using hnodup)).1 this
          simp [hpk]
        simpa using hcg
      simp only [List.map_cons, hrestmap]
      rw [hqs, hq1]
      simp [hq1, hq2, List.erase_cons_head]
    · have hkey : q.1 ≠ sid := by
        intro hcontra
        have h1 : sid ∈ rest.map Prod.fst := by
          have := List.mem_map_of_mem Prod.fst hq
          simpa using this
        rw [← hcontra] at h1
        exact (List.nodup_cons.mp (by simpa using hnodup)).1 h1
      have hnotin : sid ∉ q.2.sockets := by
        rw [hWF q (List.mem_cons_self _ _)]
        simp [Ne.symm hkey]
      rw [discScan, if_neg hnotin,
        ih (fun p hp => hWF p (List.mem_cons_of_mem _ hp))
          (List.nodup_cons.mp (by simpa using hnodup)).2 hq]
      simp [hkey]

theorem contains_iff_mem (l : List String) (a : String) :
    l.contains a = true ↔ a ∈ l := by
  induction l with
  | nil => simp
  | cons b rest ih => simp [List.contains_cons, ih]

theorem joinRoom_taken {st : ServerState} {sid name rid : String}
    (ht : joinTaken st sid name rid = true) :
    joinRoom st sid name rid =
      ({ st with sioJoined := mapSet st.sioJoined sid [] },
       [⟨Dest.socket sid, Payload.joinRejected "username_taken"
         ("Username \x22" ++ name ++
           "\x22 is already taken in this room. Please choose a different username.")⟩]) := by
  simp [joinRoom, ht]

/-- Room object written by a successful join. -/
def joinedRoomState (st : ServerState) (sid name rid : String) : Room :=
  { (mapGet st.rooms rid).getD emptyRoom with
    users := mapSet ((mapGet st.rooms rid).getD emptyRoom).users sid
      ⟨sid, name, none, [sid]⟩ }

theorem joinRoom_success {st : ServerState} {sid name rid : String}
    (ht : joinTaken st sid name rid = false) :
    joinRoom st sid name rid =
      ({ st with
          rooms := mapSet st.rooms rid (joinedRoomState st sid name rid),
          socketToRoomMap := mapSet st.socketToRoomMap sid rid,
          sioJoined := mapSet (mapSet st.sioJoined sid []) sid [rid] },
       [⟨Dest.socket sid, Payload.codeChange (joinedRoomState st sid name rid).code⟩,
        ⟨Dest.room rid, Payload.userList ((jsDedupBy (fun u => strLower u.username)
          ((joinedRoomState st sid name rid).users.map Prod.snd)).map entryOf)⟩,
        ⟨Dest.roomExcept rid sid, Payload.userJoined name⟩,
        ⟨Dest.socket sid, Payload.joinedRoom rid
          (joinedRoomState st sid name rid).users.length
          ("You (" ++ name ++ ") have joined room " ++ rid)⟩]) := by
  simp [joinRoom, ht, joinedRoomState]

theorem codeChangeEvent_hit {st : ServerState} {sid rid : String} (code : String)
    (hl : lookupRoomId st sid = some rid) (hne : rid ≠ "")
    (hhas : mapHas st.rooms rid = true) :
    codeChangeEvent st sid code =
      ({ st with
          rooms := mapSet st.rooms rid
            ({ (mapGet st.rooms rid).getD emptyRoom with code := code }) },
       [⟨Dest.roomExcept rid sid, Payload.codeChange code⟩]) := by
  have hb : (rid != "") = true := by simpa using hne
  simp [codeChangeEvent, hl, hb, hhas]

theorem chatMessageEvent_hit {st : ServerState} {sid rid : String}
    {u : UserRec} (m : ChatMsg) (now : String)
    (hl : lookupRoomId st sid = some rid) (hne : rid ≠ "")
    (hhas : mapHas st.rooms rid = true)
    (hu : mapGet ((mapGet st.rooms rid).getD emptyRoom).users sid = some u) :
    chatMessageEvent st sid m now =
      (st, [⟨Dest.roomExcept rid sid, Payload.chatMessage
        { m with
          username := u.username,
          sender := sid,
          timestamp := if m.timestamp == "" then now else m.timestamp }⟩]) := by
  have hb : (rid != "") = true := by simpa using hne
  simp [chatMessageEvent, hl, hb, hhas, hu]

theorem chatMessageEvent_state (st : ServerState) (sid : String) (m : ChatMsg)
    (now : String) : (chatMessageEvent st sid m now).1 = st := by
  unfold chatMessageEvent
  rcases hl : lookupRoomId st sid with _ | rid
  · rfl
  · by_cases hb : (rid != "" && mapHas st.rooms rid) = true
    · simp only [hb, if_true]
      rcases hu : mapGet ((mapGet st.rooms rid).getD emptyRoom).users sid with _ | u
      · simp [hu]
      · simp [hu]
    · simp [hb]

theorem requestUserListEvent_state (st : ServerState) (sid rid : String) :
    (requestUserListEvent st sid rid).1 = st := by
  unfold requestUserListEvent
  by_cases hb : (rid != "" && mapHas st.rooms rid) = true
  · simp [hb]
  · simp [hb]

theorem peerIdEvent_hit {st : ServerState} {sid rid : String} {u : UserRec}
    (peer : String)
    (hl : lookupRoomId st sid = some rid) (hne : rid ≠ "")
    (hhas : mapHas st.rooms rid = true)
    (hu : mapGet ((mapGet st.rooms rid).getD emptyRoom).users sid = some u) :
    peerIdEvent st sid peer =
      ({ st with
          rooms := mapSet st.rooms rid
            ({ (mapGet st.rooms rid).getD emptyRoom with
                users := mapSet ((mapGet st.rooms rid).getD emptyRoom).users sid
                  ({ u with peerId := some peer }) }) },
       [⟨Dest.room rid, Payload.userList
          (((mapSet ((mapGet st.rooms rid).getD emptyRoom).users sid
              ({ u with peerId := some peer })).map Prod.snd).map entryOf)⟩]) := by
  have hb : (rid != "") = true := by simpa using hne
  simp [peerIdEvent, hl, hb, hhas, hu]

theorem peerIdEvent_cases (st : ServerState) (sid peer : String) :
    peerIdEvent st sid peer = (st, []) ∨
    ∃ rid u, lookupRoomId st sid = some rid ∧ rid ≠ "" ∧
      mapHas st.rooms rid = true ∧
      mapGet ((mapGet st.rooms rid).getD emptyRoom).users sid = some u ∧
      peerIdEvent st sid peer =
        ({ st with
            rooms := mapSet st.rooms rid
              ({ (mapGet st.rooms rid).getD emptyRoom with
                  users := mapSet ((mapGet st.rooms rid).getD emptyRoom).users sid
                    ({ u with peerId := some peer }) }) },
         [⟨Dest.room rid, Payload.userList
            (((mapSet ((mapGet st.rooms rid).getD emptyRoom).users sid
                ({ u with peerId := some peer })).map Prod.snd).map entryOf)⟩]) := by
  rcases hl : lookupRoomId st sid with _ | rid
  · left; simp [peerIdEvent, hl]
  · by_cases hne : rid = ""
    · left
      subst hne
      simp [peerIdEvent, hl]
    · by_cases hhas : mapHas st.rooms rid = true
      · rcases hu : mapGet ((mapGet st.rooms rid).getD emptyRoom).users sid
          with _ | u
        · left
          have hb : (rid != "") = true := by simpa using hne
          simp [peerIdEvent, hl, hb, hhas, hu]
        · right
          exact ⟨rid, u, rfl, hne, hhas, hu, peerIdEvent_hit peer hl hne hhas hu⟩
      · left
        have hb : mapHas st.rooms rid = false := by
          simpa using hhas
        simp [peerIdEvent, hl, hb]

theorem codeChangeEvent_cases (st : ServerState) (sid code : String) :
    codeChangeEvent st sid code = (st, []) ∨
    ∃ rid, lookupRoomId st sid = some rid ∧ rid ≠ "" ∧
      mapHas st.rooms rid = true ∧
      codeChangeEvent st sid code =
        ({ st with
            rooms := mapSet st.rooms rid
              ({ (mapGet st.rooms rid).getD emptyRoom with code := code }) },
         [⟨Dest.roomExcept rid sid, Payload.codeChange code⟩]) := by
  rcases hl : lookupRoomId st sid with _ | rid
  · left; simp [codeChangeEvent, hl]
  · by_cases hne : rid = ""
    · left
      subst hne
      simp [codeChangeEvent, hl]
    · by_cases hhas : mapHas st.rooms rid = true
      · right
        exact ⟨rid, rfl, hne, hhas, codeChangeEvent_hit code hl hne hhas⟩
      · left
        have hb : mapHas st.rooms rid = false := by simpa using hhas
        simp [codeChangeEvent, hl, hb]

theorem chatMessageEvent_emits (st : ServerState) (sid : String) (m : ChatMsg)
    (now : String) :
    (chatMessageEvent st sid m now).2 = [] ∨
    ∃ rid m1, (chatMessageEvent st sid m now).2 =
      [⟨Dest.roomExcept rid sid, Payload.chatMessage m1⟩] := by
  unfold chatMessageEvent
  rcases hl : lookupRoomId st sid with _ | rid
  · left; rfl
  · by_cases hb : (rid != "" && mapHas st.rooms rid) = true
    · simp only [hb, if_true]
      rcases hu : mapGet ((mapGet st.rooms rid).getD emptyRoom).users sid
        with _ | u
      · left; simp [hu]
      · right
        refine ⟨rid,
          ({ m with
              username := u.username,
              sender := sid,
              timestamp := if m.timestamp == "" then now else m.timestamp }),
          ?_⟩
        simp [hu]
    · left; simp [hb]

theorem requestUserListEvent_hit {st : ServerState} {sid rid : String}
    (hne : rid ≠ "") (hhas : mapHas st.rooms rid = true) :
    requestUserListEvent st sid rid =
      (st, [⟨Dest.socket sid, Payload.userList
              ((((mapGet st.rooms rid).getD emptyRoom).users.map Prod.snd).map entryOf)⟩,
            ⟨Dest.room rid, Payload.userList
              ((((mapGet st.rooms rid).getD emptyRoom).users.map Prod.snd).map entryOf)⟩]) := by
  have hb : (rid != "") = true := by simpa using hne
  simp [requestUserListEvent, hb, hhas]

theorem requestUserListEvent_miss {st : ServerState} {sid rid : String}
    (h : ¬ (rid ≠ "" ∧ mapHas st.rooms rid = true)) :
    requestUserListEvent st sid rid =
      (st, [⟨Dest.socket sid, Payload.userList []⟩]) := by
  by_cases hne : rid = ""
  · subst hne; simp [requestUserListEvent]
  · have hb : mapHas st.rooms rid = false := by
      rcases h2 : mapHas st.rooms rid with _ | _
      · rfl
      · exact absurd ⟨hne, h2⟩ h
    simp [requestUserListEvent, hb]

theorem disconnectEvent_nolookup {st : ServerState} {sid : String}
    (h : mapGet st.socketToRoomMap sid = none) :
    disconnectEvent st sid = (cleanupState st sid, []) := by
  simp [disconnectEvent, h]

theorem disconnectEvent_noroom {st : ServerState} {sid rid : String}
    (h : mapGet st.socketToRoomMap sid = some rid)
    (hb : ¬ (rid ≠ "" ∧ mapHas st.rooms rid = true)) :
    disconnectEvent st sid = (cleanupState st sid, []) := by
  have hb2 : (rid != "" && mapHas st.rooms rid) = false := by
    by_cases hne : rid = ""
    · subst hne; simp
    · rcases h2 : mapHas st.rooms rid with _ | _
      · simp [h2]
      · exact absurd ⟨hne, h2⟩ hb
  simp [disconnectEvent, h, hb2]

theorem disconnectEvent_nomatch {st : ServerState} {sid rid : String}
    (h : mapGet st.socketToRoomMap sid = some rid) (hne : rid ≠ "")
    (hhas : mapHas st.rooms rid = true)
    (hscan : (discScan sid ((mapGet st.rooms rid).getD emptyRoom).users).2.1 = none) :
    disconnectEvent st sid = (cleanupState st sid, []) := by
  have hb : (rid != "") = true := by simpa using hne
  simp [disconnectEvent, h, hb, hhas, hscan]

theorem disconnectEvent_found {st : ServerState} {sid rid : String}
    {fnd : String × UserRec}
    (h : mapGet st.socketToRoomMap sid = some rid) (hne : rid ≠ "")
    (hhas : mapHas st.rooms rid = true)
    (hscan : (discScan sid ((mapGet st.rooms rid).getD emptyRoom).users).2.1 = some fnd) :
    disconnectEvent st sid =
      (cleanupState
        ({ st with rooms :=
          (if (if (discScan sid ((mapGet st.rooms rid).getD emptyRoom).users).2.2
                then mapDelete (discScan sid ((mapGet st.rooms rid).getD emptyRoom).users).1 fnd.1
                else (discScan sid ((mapGet st.rooms rid).getD emptyRoom).users).1).isEmpty
            then mapDelete st.rooms rid
            else mapSet st.rooms rid
              ({ (mapGet st.rooms rid).getD emptyRoom with
                  users := if (discScan sid ((mapGet st.rooms rid).getD emptyRoom).users).2.2
                    then mapDelete (discScan sid ((mapGet st.rooms rid).getD emptyRoom).users).1 fnd.1
                    else (discScan sid ((mapGet st.rooms rid).getD emptyRoom).users).1 })) }) sid,
       (if (discScan sid ((mapGet st.rooms rid).getD emptyRoom).users).2.2
          then [⟨Dest.room rid, Payload.userLeft fnd.2.username⟩] else []) ++
        [⟨Dest.room rid, Payload.userList
          ((jsDedupBy (fun u => u.username)
            (((if (discScan sid ((mapGet st.rooms rid).getD emptyRoom).users).2.2
                then mapDelete (discScan sid ((mapGet st.rooms rid).getD emptyRoom).users).1 fnd.1
                else (discScan sid ((mapGet st.rooms rid).getD emptyRoom).users).1).map Prod.snd))).map entryOf)⟩]) := by
  have hb : (rid != "") = true := by simpa using hne
  simp [disconnectEvent, h, hb, hhas, hscan]

theorem connectEvent_rooms (st : ServerState) (sid c r : String) :
    (connectEvent st sid c r).1.rooms = st.rooms := by
  unfold connectEvent
  by_cases hc : (c != "") = true
  · by_cases hr : (r != "") = true
    · simp [hc, hr]
    · simp [hc, hr]
  · simp [hc]

/-- Well-formedness of one room's member map: non-empty, unique socket-id
keys, each record keyed by its own id with that id as its only connection,
and case-insensitively unique display names. -/
def RoomWF (r : Room) : Prop :=
  r.users ≠ [] ∧
  (r.users.map Prod.fst).Nodup ∧
  (∀ q ∈ r.users, q.2.id = q.1 ∧ q.2.sockets = [q.1]) ∧
  (∀ q ∈ r.users, ∀ q2 ∈ r.users,
    strLower q.2.username = strLower q2.2.username → q.1 = q2.1)

/-- State invariant: every stored room is well-formed. -/
def Inv (st : ServerState) : Prop :=
  ∀ p ∈ st.rooms, RoomWF p.2

theorem keys_mapDelete (m : List (String × α)) (k : String) :
    (mapDelete m k).map Prod.fst = (m.map Prod.fst).filter (fun a => a != k) := by
  induction m with
  | nil => rfl
  | cons p rest ih =>
    simp only [mapDelete, List.filter_cons] at ih ⊢
    by_cases hp : (p.1 != k) = true
    · simp [hp, ih]
    · simp [hp, ih]

theorem mapDelete_map_of_keyfix {f : (String × UserRec) → (String × UserRec)}
    {k : String}
    (hf : ∀ q, (f q).1 = q.1) (hid : ∀ q, q.1 ≠ k → f q = q)
    (l : List (String × UserRec)) :
    mapDelete (l.map f) k = mapDelete l k := by
  induction l with
  | nil => rfl
  | cons q rest ih =>
    simp only [List.map_cons, mapDelete, List.filter_cons, hf q]
    by_cases hq : (q.1 != k) = true
    · have hqk : q.1 ≠ k := by simpa using hq
      rw [if_pos hq, if_pos hq, hid q hqk]
      simp only [mapDelete] at ih
      rw [ih]
    · rw [if_neg hq, if_neg hq]
      simp only [mapDelete] at ih
      rw [ih]

theorem roomWF_joinedRoomState {st : ServerState} {sid name rid : String}
    (h : Inv st) (ht : joinTaken st sid name rid = false) :
    RoomWF (joinedRoomState st sid name rid) := by
  unfold joinedRoomState
  rcases hget : mapGet st.rooms rid with _ | room
  · refine ⟨by simp [mapSet, emptyRoom], by simp [mapSet, emptyRoom], ?_, ?_⟩
    · intro q hq
      simp [mapSet, emptyRoom] at hq
      subst hq
      exact ⟨rfl, rfl⟩
    · intro q hq q2 hq2 hlow
      simp [mapSet, emptyRoom] at hq hq2
      rw [hq, hq2]
  · have hwf : RoomWF room := h (rid, room) (mem_of_mapGet_eq_some hget)
    obtain ⟨hne, hnodup, hrec, hnames⟩ := hwf
    have htaken : ∀ q ∈ room.users,
        strLower q.2.username = strLower name → q.2.id = sid := by
      intro q hq hlow
      unfold joinTaken at ht
      rw [hget] at ht
      rw [List.any_eq_false] at ht
      have h2 := ht q hq
      by_contra hid
      apply h2
      simp [hlow, hid]
    simp only [Option.getD_some]
    refine ⟨mapSet_ne_nil _ _ _, ?_, ?_, ?_⟩
    · rw [keys_mapSet]
      by_cases hc : (room.users.map Prod.fst).contains sid = true
      · simp only [hc, if_true]
        exact hnodup
      · simp only [hc, Bool.false_eq_true, if_false]
        rw [List.nodup_append]
        refine ⟨hnodup, List.nodup_singleton _, ?_⟩
        intro a ha hb
        have has : a = sid := by simpa using hb
        subst has
        have hc2 : ¬ a ∈ room.users.map Prod.fst := by
          intro hmem
          exact hc ((contains_iff_mem _ _).mpr hmem)
        exact hc2 ha
    · intro q hq
      rcases mem_mapSet hq with rfl | hq2
      · exact ⟨rfl, rfl⟩
      · exact hrec q hq2
    · intro q hq q2 hq2 hlow
      rcases mem_mapSet hq with rfl | hq3
      · rcases mem_mapSet hq2 with rfl | hq4
        · rfl
        · have hid2 : q2.2.id = sid := htaken q2 hq4 (by simpa using hlow.symm)
          have := (hrec q2 hq4).1
          simp only []
          rw [← this, hid2]
      · rcases mem_mapSet hq2 with rfl | hq4
        · have hid1 : q.2.id = sid := htaken q hq3 (by simpa using hlow)
          have := (hrec q hq3).1
          rw [← this, hid1]
        · exact hnames q hq3 q2 hq4 hlow

theorem inv_joinRoom (st : ServerState) (h : Inv st) (sid name rid : String) :
    Inv (joinRoom st sid name rid).1 := by
  rcases ht : joinTaken st sid name rid with _ | _
  · rw [joinRoom_success ht]
    intro p hp
    rcases mem_mapSet hp with rfl | hp2
    · exact roomWF_joinedRoomState h ht
    · exact h p hp2
  · rw [joinRoom_taken ht]
    exact h

theorem inv_peerIdEvent (st : ServerState) (h : Inv st) (sid peer : String) :
    Inv (peerIdEvent st sid peer).1 := by
  rcases peerIdEvent_cases st sid peer with hc | ⟨rid, u, hl, hne, hhas, hu, hc⟩
  · rw [hc]; exact h
  · rw [hc]
    intro p hp
    rcases mem_mapSet hp with rfl | hp2
    · obtain ⟨room, hroom⟩ := Option.isSome_iff_exists.mp
        (by rw [← mapHas_eq_isSome]; exact hhas)
      rw [hroom] at hu ⊢
      simp only [Option.getD_some] at hu ⊢
      obtain ⟨hne2, hnodup, hrec, hnames⟩ := h (rid, room) (mem_of_mapGet_eq_some hroom)
      have humem : (sid, u) ∈ room.users := mem_of_mapGet_eq_some hu
      have hukey : u.id = sid ∧ u.sockets = [sid] := by
        have := hrec (sid, u) humem
        exact this
      refine ⟨mapSet_ne_nil _ _ _, ?_, ?_, ?_⟩
      · rw [keys_mapSet]
        have hc2 : (room.users.map Prod.fst).contains sid = true := by
          rw [contains_iff_mem]
          exact List.mem_map_of_mem Prod.fst humem
        simp only [hc2, if_true]
        exact hnodup
      · intro q hq
        rcases mem_mapSet hq with rfl | hq2
        · exact ⟨hukey.1, hukey.2⟩
        · exact hrec q hq2
      · intro q hq q2 hq2 hlow
        rcases mem_mapSet hq with rfl | hq3
        · rcases mem_mapSet hq2 with rfl | hq4
          · rfl
          · exact hnames (sid, u) humem q2 hq4 hlow
        · rcases mem_mapSet hq2 with rfl | hq4
          · exact hnames q hq3 (sid, u) humem hlow
          · exact hnames q hq3 q2 hq4 hlow
    · exact h p hp2

theorem inv_codeChangeEvent (st : ServerState) (h : Inv st) (sid code : String) :
    Inv (codeChangeEvent st sid code).1 := by
  rcases codeChangeEvent_cases st sid code with hc | ⟨rid, hl, hne, hhas, hc⟩
  · rw [hc]; exact h
  · rw [hc]
    intro p hp
    rcases mem_mapSet hp with rfl | hp2
    · obtain ⟨room, hroom⟩ := Option.isSome_iff_exists.mp
        (by rw [← mapHas_eq_isSome]; exact hhas)
      rw [hroom]
      simp only [Option.getD_some]
      exact h (rid, room) (mem_of_mapGet_eq_some hroom)
    · exact h p hp2

theorem inv_disconnectEvent (st : ServerState) (h : Inv st) (sid : String) :
    Inv (disconnectEvent st sid).1 := by
  rcases hl : mapGet st.socketToRoomMap sid with _ | rid
  · rw [disconnectEvent_nolookup hl]
    exact h
  · by_cases hb : rid ≠ "" ∧ mapHas st.rooms rid = true
    · obtain ⟨hne, hhas⟩ := hb
      obtain ⟨room, hroom⟩ := Option.isSome_iff_exists.mp
        (by rw [← mapHas_eq_isSome]; exact hhas)
      obtain ⟨hne2, hnodup, hrec, hnames⟩ := h (rid, room) (mem_of_mapGet_eq_some hroom)
      have hWFs : ∀ q ∈ room.users, q.2.sockets = [q.1] :=
        fun q hq => (hrec q hq).2
      by_cases hsid : sid ∈ room.users.map Prod.fst
      · obtain ⟨q0, hq0, hq0k⟩ := List.mem_map.mp hsid
        have hq0mem : (sid, q0.2) ∈ room.users := by
          have : q0 = (sid, q0.2) := by
            rw [← hq0k]
          rw [← this]
          exact hq0
        have hscan := discScan_of_key_mem hWFs hnodup hq0mem
        have hscan2 : (discScan sid ((mapGet st.rooms rid).getD emptyRoom).users).2.1
            = some (sid, { q0.2 with sockets := [] }) := by
          rw [hroom]
          simp only [Option.getD_some]
          rw [hscan]
        rw [disconnectEvent_found hl hne hhas hscan2]
        have hreduce : (discScan sid ((mapGet st.rooms rid).getD emptyRoom).users)
            = (room.users.map (fun q =>
                if q.1 == sid then (q.1, { q.2 with sockets := [] }) else q),
               some (sid, { q0.2 with sockets := [] }), true) := by
          rw [hroom]
          simp only [Option.getD_some]
          exact hscan
        rw [hreduce]
        simp only [if_true]
        have husers2 : mapDelete (room.users.map (fun q =>
            if q.1 == sid then (q.1, { q.2 with sockets := [] }) else q)) sid
            = mapDelete room.users sid := by
          apply mapDelete_map_of_keyfix
          · intro q
            by_cases hq : (q.1 == sid) = true <;> simp [hq]
          · intro q hq
            have : (q.1 == sid) = false := by simpa using hq
            simp [this]
        rw [husers2]
        intro p hp
        simp only [cleanupState] at hp
        by_cases hemp : (mapDelete room.users sid).isEmpty = true
        · simp only [hemp, if_true] at hp
          exact h p (List.Sublist.mem hp (mapDelete_sublist _ _))
        · simp only [hemp, Bool.false_eq_true, if_false] at hp
          rcases mem_mapSet hp with rfl | hp2
          · refine ⟨?_, ?_, ?_, ?_⟩
            · intro hcontra
              rw [List.isEmpty_iff] at hemp
              exact hemp hcontra
            · rw [keys_mapDelete]
              exact List.Nodup.filter _ hnodup
            · intro q hq
              exact hrec q (mem_mapDelete hq).1
            · intro q hq q2 hq2 hlow
              exact hnames q (mem_mapDelete hq).1 q2 (mem_mapDelete hq2).1 hlow
          · exact h p hp2
      · have hnomatch : ∀ q ∈ room.users, sid ∉ q.2.sockets := by
          intro q hq
          rw [hWFs q hq]
          intro hcontra
          have hqs : q.1 = sid := by
            have := hcontra
            simp at this
            exact this.symm
          exact hsid (hqs ▸ List.mem_map_of_mem Prod.fst hq)
        have hscan2 : (discScan sid ((mapGet st.rooms rid).getD emptyRoom).users).2.1
            = none := by
          rw [hroom]
          simp only [Option.getD_some]
          rw [discScan_nomatch hnomatch]
        rw [disconnectEvent_nomatch hl hne hhas hscan2]
        exact h
    · rw [disconnectEvent_noroom hl hb]
      exact h

theorem inv_step (st : ServerState) (h : Inv st) (e : Event) :
    Inv (step st e).1 := by
  cases e with
  | connect sid c r =>
    intro p hp
    rw [show (step st (Event.connect sid c r)).1.rooms = st.rooms from
      connectEvent_rooms st sid c r] at hp
    exact h p hp
  | join sid u r => exact inv_joinRoom st h sid u r
  | peer sid p2 => exact inv_peerIdEvent st h sid p2
  | edit sid c => exact inv_codeChangeEvent st h sid c
  | chat sid m now =>
    rw [show (step st (Event.chat sid m now)).1 = st from
      chatMessageEvent_state st sid m now]
    exact h
  | reqList sid r =>
    rw [show (step st (Event.reqList sid r)).1 = st from
      requestUserListEvent_state st sid r]
    exact h
  | disc sid => exact inv_disconnectEvent st h sid

theorem inv_foldl (es : List Event) :
    ∀ st : ServerState, Inv st →
      Inv (es.foldl (fun s e => (step s e).1) st) := by
  induction es with
  | nil => intro st h; exact h
  | cons e rest ih => intro st h; exact ih _ (inv_step st h e)

theorem inv_reachable {st : ServerState} (h : Reachable st) : Inv st := by
  obtain ⟨es, rfl⟩ := h
  exact inv_foldl es initState (fun p hp => absurd hp (List.not_mem_nil p))

theorem forall_ne_of_mapGet_eq_none {m : List (String × α)} {k : String}
    (h : mapGet m k = none) : ∀ p ∈ m, p.1 ≠ k := by
  induction m with
  | nil => intro p hp; cases hp
  | cons q rest ih =>
    rw [mapGet_cons] at h
    by_cases hq : (q.1 == k) = true
    · rw [if_pos hq] at h; cases h
    · rw [if_neg hq] at h
      intro p hp
      rcases List.mem_cons.mp hp with rfl | hp2
      · simpa using hq
      · exact ih h p hp2

theorem lookupRoomId_of_registered {st : ServerState} {sid rid : String}
    (h : mapGet st.socketToRoomMap sid = some rid) (hne : rid ≠ "") :
    lookupRoomId st sid = some rid := by
  unfold lookupRoomId
  rw [h]
  simp [hne]

theorem mapSet_mem_self (m : List (String × α)) (k : String) (v : α) :
    (k, v) ∈ mapSet m k v :=
  mem_of_mapGet_eq_some (mapGet_mapSet_self m k v)

/-- C1: a join request for an existing room in which a different member
already holds the name case-insensitively is rejected with reason
`username_taken`; the rejection goes only to the requesting connection,
no state visible to the room changes, and no room is created. -/
theorem join_rejected_no_mutation (st : ServerState) (sid name rid : String)
    (hroom : mapHas st.rooms rid = true)
    (htaken : ∃ q ∈ ((mapGet st.rooms rid).getD emptyRoom).users,
      strLower q.2.username = strLower name ∧ q.2.id ≠ sid) :
    (joinRoom st sid name rid).1.rooms = st.rooms ∧
    (joinRoom st sid name rid).1.socketToRoomMap = st.socketToRoomMap ∧
    (joinRoom st sid name rid).1.socketToClientMap = st.socketToClientMap ∧
    (joinRoom st sid name rid).2 =
      [⟨Dest.socket sid, Payload.joinRejected "username_taken"
        ("Username \x22" ++ name ++
          "\x22 is already taken in this room. Please choose a different username.")⟩] ∧
    (∀ e ∈ (joinRoom st sid name rid).2, ∀ d : String,
      deliversTo (joinRoom st sid name rid).1 e d = true → d = sid) := by
  have ht : joinTaken st sid name rid = true := by
    obtain ⟨room, hget⟩ := Option.isSome_iff_exists.mp
      (by rw [← mapHas_eq_isSome]; exact hroom)
    obtain ⟨q, hq, hlow, hid⟩ := htaken
    rw [hget] at hq
    simp only [Option.getD_some] at hq
    unfold joinTaken
    rw [hget, List.any_eq_true]
    exact ⟨q, hq, by simp [hlow, hid]⟩
  rw [joinRoom_taken ht]
  refine ⟨rfl, rfl, rfl, rfl, ?_⟩
  intro e he d hd
  have he2 : e = ⟨Dest.socket sid, Payload.joinRejected "username_taken"
      ("Username \x22" ++ name ++
        "\x22 is already taken in this room. Please choose a different username.")⟩ := by
    simpa using he
  subst he2
  simp only [deliversTo] at hd
  have h3 : sid = d := by simpa using hd
  exact h3.symm

/-- State used by several witnesses: one room `r1` whose sole member is
`alice` on socket `s1`. -/
def stAlice : ServerState := run [Event.join "s1" "alice" "r1"]

theorem join_rejected_no_mutation_witness :
    (joinRoom stAlice "s2" "ALICE" "r1").1.rooms = stAlice.rooms ∧
    (joinRoom stAlice "s2" "ALICE" "r1").2 =
      [⟨Dest.socket "s2", Payload.joinRejected "username_taken"
        ("Username \x22ALICE\x22 is already taken in this room. Please choose a different username.")⟩] := by
  have h := join_rejected_no_mutation stAlice "s2" "ALICE" "r1" (by decide)
    ⟨("s1", ⟨"s1", "alice", none, ["s1"]⟩), by decide, by decide, by decide⟩
  exact ⟨h.1, h.2.2.2.1⟩

/-- C3: in every reachable state, every room present in the rooms map has a
non-empty member map (rooms are created on first successful join and the
disconnect cleanup deletes a room the moment its membership reaches zero). -/
theorem reachable_room_nonempty (st : ServerState) (h : Reachable st) :
    ∀ p ∈ st.rooms, p.2.users ≠ [] := by
  intro p hp
  exact (inv_reachable h p hp).1

theorem reachable_room_nonempty_witness :
    (("r1", ({ users := [("s1", ⟨"s1", "alice", none, ["s1"]⟩)], code := "" } : Room))).2.users
      ≠ [] :=
  reachable_room_nonempty (run [Event.join "s1" "alice" "r1"])
    ⟨[Event.join "s1" "alice" "r1"], rfl⟩ _ (by decide)

/-- C7: joining a room that does not yet exist always succeeds (the
username-taken scan cannot fire) and creates the room with an empty buffer
and the joining connection as its sole member; on every successful join the
room's current buffer is delivered by a point-to-point `socket.emit` to the
new connection, and no other emission of the join carries the buffer. -/
theorem join_new_room_and_catchup (st : ServerState) (sid name rid : String) :
    (mapHas st.rooms rid = false → joinTaken st sid name rid = false) ∧
    (joinTaken st sid name rid = false →
      (joinRoom st sid name rid).2 =
        [⟨Dest.socket sid,
           Payload.codeChange ((mapGet st.rooms rid).getD emptyRoom).code⟩,
         ⟨Dest.room rid, Payload.userList ((jsDedupBy (fun u => strLower u.username)
           ((joinedRoomState st sid name rid).users.map Prod.snd)).map entryOf)⟩,
         ⟨Dest.roomExcept rid sid, Payload.userJoined name⟩,
         ⟨Dest.socket sid, Payload.joinedRoom rid
           (joinedRoomState st sid name rid).users.length
           ("You (" ++ name ++ ") have joined room " ++ rid)⟩] ∧
      (∀ e ∈ (joinRoom st sid name rid).2, ∀ c : String,
        e.payload = Payload.codeChange c →
          e = ⟨Dest.socket sid,
            Payload.codeChange ((mapGet st.rooms rid).getD emptyRoom).code⟩) ∧
      (mapHas st.rooms rid = false →
        mapGet (joinRoom st sid name rid).1.rooms rid =
          some ⟨[(sid, ⟨sid, name, none, [sid]⟩)], ""⟩)) := by
  constructor
  · intro hnew
    unfold joinTaken
    have hnone : mapGet st.rooms rid = none := by
      rw [mapHas_eq_isSome] at hnew
      exact Option.not_isSome_iff_eq_none.mp (by simp [hnew])
    rw [hnone]
  · intro hsucc
    have hchar := joinRoom_success hsucc
    refine ⟨?_, ?_, ?_⟩
    · rw [hchar]
      rfl
    · intro e he c hpc
      rw [hchar] at he
      simp only [List.mem_cons, List.not_mem_nil, or_false] at he
      rcases he with rfl | rfl | rfl | rfl
      · rfl
      · cases hpc
      · cases hpc
      · cases hpc
    · intro hnew
      have hnone : mapGet st.rooms rid = none := by
        rw [mapHas_eq_isSome] at hnew
        exact Option.not_isSome_iff_eq_none.mp (by simp [hnew])
      rw [hchar]
      show mapGet (mapSet st.rooms rid (joinedRoomState st sid name rid)) rid = _
      rw [mapGet_mapSet_self]
      unfold joinedRoomState
      rw [hnone]
      rfl

theorem join_new_room_and_catchup_witness :
    mapHas initState.rooms "r1" = false ∧
    mapGet (joinRoom initState "s1" "alice" "r1").1.rooms "r1" =
      some ⟨[("s1", ⟨"s1", "alice", none, ["s1"]⟩)], ""⟩ ∧
    (joinRoom initState "s1" "alice" "r1").2.head? =
      some ⟨Dest.socket "s1", Payload.codeChange ""⟩ := by
  have h := join_new_room_and_catchup initState "s1" "alice" "r1"
  have hnew : mapHas initState.rooms "r1" = false := by decide
  have hsucc := h.1 hnew
  have h2 := h.2 hsucc
  refine ⟨hnew, h2.2.2 hnew, ?_⟩
  rw [h2.1]
  rfl

theorem disconnectEvent_maps (s : ServerState) (sid : String) :
    (disconnectEvent s sid).1.socketToClientMap = mapDelete s.socketToClientMap sid ∧
    (disconnectEvent s sid).1.socketToRoomMap = mapDelete s.socketToRoomMap sid ∧
    (disconnectEvent s sid).1.sioJoined = mapDelete s.sioJoined sid := by
  unfold disconnectEvent
  rcases hl : mapGet s.socketToRoomMap sid with _ | rid
  · exact ⟨rfl, rfl, rfl⟩
  · by_cases hb : (rid != "" && mapHas s.rooms rid) = true
    · simp only [hb, if_true]
      rcases hscan : (discScan sid ((mapGet s.rooms rid).getD emptyRoom).users).2.1
        with _ | fnd
      · exact ⟨rfl, rfl, rfl⟩
      · exact ⟨rfl, rfl, rfl⟩
    · simp only [hb, Bool.false_eq_true, if_false]
      exact ⟨rfl, rfl, rfl⟩

/-- C9: disconnect cleanup is idempotent: for a connection id absent from
both registries and from every room's member records the handler changes
neither the rooms map nor the registries and emits nothing, and running
the handler twice for the same id always equals running it once (the second
run is a silent no-op). -/
theorem disconnect_idempotent (st : ServerState) (sid : String)
    (h1 : mapGet st.socketToRoomMap sid = none)
    (h2 : mapGet st.socketToClientMap sid = none)
    (h3 : ∀ p ∈ st.rooms, ∀ q ∈ p.2.users, q.1 ≠ sid ∧ sid ∉ q.2.sockets) :
    ((disconnectEvent st sid).1.rooms = st.rooms ∧
     (disconnectEvent st sid).1.socketToClientMap = st.socketToClientMap ∧
     (disconnectEvent st sid).1.socketToRoomMap = st.socketToRoomMap ∧
     (disconnectEvent st sid).2 = []) ∧
    (∀ s : ServerState,
      disconnectEvent (disconnectEvent s sid).1 sid =
        ((disconnectEvent s sid).1, [])) := by
  constructor
  · rw [disconnectEvent_nolookup h1]
    refine ⟨rfl, ?_, ?_, rfl⟩
    · exact mapDelete_eq_self_of_not_mem (forall_ne_of_mapGet_eq_none h2)
    · exact mapDelete_eq_self_of_not_mem (forall_ne_of_mapGet_eq_none h1)
  · intro s
    have hmaps := disconnectEvent_maps s sid
    have hnone : mapGet (disconnectEvent s sid).1.socketToRoomMap sid = none := by
      rw [hmaps.2.1]
      exact mapGet_mapDelete_self _ _
    rw [disconnectEvent_nolookup hnone]
    have e1 : mapDelete (disconnectEvent s sid).1.socketToClientMap sid
        = (disconnectEvent s sid).1.socketToClientMap := by
      rw [hmaps.1, mapDelete_mapDelete]
    have e2 : mapDelete (disconnectEvent s sid).1.socketToRoomMap sid
        = (disconnectEvent s sid).1.socketToRoomMap := by
      rw [hmaps.2.1, mapDelete_mapDelete]
    have e3 : mapDelete (disconnectEvent s sid).1.sioJoined sid
        = (disconnectEvent s sid).1.sioJoined := by
      rw [hmaps.2.2, mapDelete_mapDelete]
    simp only [cleanupState, e1, e2, e3]

theorem disconnect_idempotent_witness :
    (disconnectEvent initState "s9").1.rooms = initState.rooms ∧
    (disconnectEvent initState "s9").2 = [] ∧
    disconnectEvent (disconnectEvent initState "s9").1 "s9" =
      ((disconnectEvent initState "s9").1, []) := by
  have h := disconnect_idempotent initState "s9" (by decide) (by decide)
    (fun p hp => absurd hp (List.not_mem_nil p))
  exact ⟨h.1.1, h.1.2.2.2, h.2 initState⟩

/-- C10: in every reachable state every member record's socket list is
exactly the one-element list holding its own map key, and consequently the
disconnect scan can never mark a record as still having remaining
connections: whenever the scan finds a record, the remove-completely flag
is set. -/
theorem member_sockets_singleton (st : ServerState) (h : Reachable st) :
    (∀ p ∈ st.rooms, ∀ q ∈ p.2.users, q.2.sockets = [q.1]) ∧
    (∀ p ∈ st.rooms, ∀ sid : String,
      ((discScan sid p.2.users).2.1).isSome = true →
      (discScan sid p.2.users).2.2 = true) := by
  have hinv := inv_reachable h
  constructor
  · intro p hp q hq
    exact ((hinv p hp).2.2.1 q hq).2
  · intro p hp sid hsome
    obtain ⟨hne, hnodup, hrec, hnames⟩ := hinv p hp
    by_cases hsid : sid ∈ p.2.users.map Prod.fst
    · obtain ⟨q0, hq0, hq0k⟩ := List.mem_map.mp hsid
      have hq0mem : (sid, q0.2) ∈ p.2.users := by
        have heq : q0 = (sid, q0.2) := by rw [← hq0k]
        rw [← heq]
        exact hq0
      rw [discScan_of_key_mem (fun q hq => (hrec q hq).2) hnodup hq0mem]
    · have hnomatch : ∀ q ∈ p.2.users, sid ∉ q.2.sockets := by
        intro q hq
        rw [(hrec q hq).2]
        intro hcontra
        have hqs : q.1 = sid := by
          have h4 := hcontra
          simp at h4
          exact h4.symm
        exact hsid (hqs ▸ List.mem_map_of_mem Prod.fst hq)
      rw [discScan_nomatch hnomatch] at hsome
      simp at hsome

theorem member_sockets_singleton_witness :
    ({ id := "s1", username := "alice", peerId := none, sockets := ["s1"] }
      : UserRec).sockets = ["s1"] :=
  (member_sockets_singleton stAlice ⟨[Event.join "s1" "alice" "r1"], rfl⟩).1
    ("r1", ⟨[("s1", ⟨"s1", "alice", none, ["s1"]⟩)], ""⟩) (by decide)
    ("s1", ⟨"s1", "alice", none, ["s1"]⟩) (by decide)

/-- Event sequence in which socket `s1` joins room `r1` and then joins room
`r2`: the previous-room cleanup of `joinRoom` only calls `socket.leave` and
never removes the member record from the first room. -/
def esStale : List Event :=
  [Event.connect "s1" "" "", Event.join "s1" "alice" "r1",
   Event.join "s1" "alice" "r2"]

/-- C6 counterexample: in the reachable state produced by joining `r1` and
then `r2` from the same connection, the connection id `s1` owns a member
record in both rooms simultaneously, refuting the claim that every
connection id belongs to exactly one member record across all rooms after
joining a second room. -/
theorem connection_in_two_rooms :
    Reachable (run esStale) ∧
    ("s1", (⟨"s1", "alice", none, ["s1"]⟩ : UserRec)) ∈
      ((mapGet (run esStale).rooms "r1").getD emptyRoom).users ∧
    ("s1", (⟨"s1", "alice", none, ["s1"]⟩ : UserRec)) ∈
      ((mapGet (run esStale).rooms "r2").getD emptyRoom).users ∧
    ("r1" : String) ≠ "r2" :=
  ⟨⟨esStale, rfl⟩, by decide, by decide, by decide⟩

/-- C6 amended: within each room of a reachable state every connection id
maps to exactly one member record (member-map keys are unique and each
record's socket list is exactly its own key) and no record with an empty
socket list exists; cross-room uniqueness does not hold because joining a
second room leaves the old room's record in place. -/
theorem member_record_unique_within_room (st : ServerState) (h : Reachable st) :
    ∀ p ∈ st.rooms, (p.2.users.map Prod.fst).Nodup ∧
      ∀ q ∈ p.2.users, q.2.sockets ≠ [] ∧ ∀ c ∈ q.2.sockets, q.1 = c := by
  have hinv := inv_reachable h
  intro p hp
  obtain ⟨hne, hnodup, hrec, _⟩ := hinv p hp
  refine ⟨hnodup, ?_⟩
  intro q hq
  rw [(hrec q hq).2]
  constructor
  · simp
  · intro c hc
    have hcq : c = q.1 := by simpa using hc
    exact hcq.symm

theorem member_record_unique_within_room_witness :
    (([("s1", (⟨"s1", "alice", none, ["s1"]⟩ : UserRec))]).map Prod.fst).Nodup :=
  (member_record_unique_within_room stAlice
    ⟨[Event.join "s1" "alice" "r1"], rfl⟩
    ("r1", ⟨[("s1", ⟨"s1", "alice", none, ["s1"]⟩)], ""⟩) (by decide)).1

/-- C2: a code-change from a connection registered to an existing room
overwrites the room's buffer with exactly the payload (last-writer-wins,
no merge), forwards the new value to every other connection in the
socket.io room, sends nothing back to the editing connection, and after
two successive edits the buffer equals the second payload. -/
theorem code_change_last_writer_wins (st : ServerState)
    (c1 c2 rid e1 e2 : String)
    (h1 : mapGet st.socketToRoomMap c1 = some rid)
    (h2 : mapGet st.socketToRoomMap c2 = some rid)
    (hne : rid ≠ "") (hhas : mapHas st.rooms rid = true) :
    codeChangeEvent st c1 e1 =
      ({ st with
          rooms := mapSet st.rooms rid
            ({ (mapGet st.rooms rid).getD emptyRoom with code := e1 }) },
       [⟨Dest.roomExcept rid c1, Payload.codeChange e1⟩]) ∧
    (∀ d : String, (roomSockets st rid).contains d = true → d ≠ c1 →
      deliversTo (codeChangeEvent st c1 e1).1
        ⟨Dest.roomExcept rid c1, Payload.codeChange e1⟩ d = true) ∧
    (∀ e ∈ (codeChangeEvent st c1 e1).2,
      deliversTo (codeChangeEvent st c1 e1).1 e c1 = false) ∧
    mapGet ((codeChangeEvent (codeChangeEvent st c1 e1).1 c2 e2).1).rooms rid =
      some ({ (mapGet st.rooms rid).getD emptyRoom with code := e2 }) := by
  have hl1 := lookupRoomId_of_registered h1 hne
  have hchar1 := codeChangeEvent_hit e1 hl1 hne hhas
  have hs : (codeChangeEvent st c1 e1).1.socketToRoomMap = st.socketToRoomMap := by
    rw [hchar1]
  have hsio : (codeChangeEvent st c1 e1).1.sioJoined = st.sioJoined := by
    rw [hchar1]
  refine ⟨hchar1, ?_, ?_, ?_⟩
  · intro d hd hdc
    have hrs : roomSockets (codeChangeEvent st c1 e1).1 rid = roomSockets st rid := by
      unfold roomSockets
      rw [hsio]
    have hbne : (d != c1) = true := by simpa using hdc
    show ((roomSockets (codeChangeEvent st c1 e1).1 rid).contains d && (d != c1)) = true
    rw [hrs, hd, hbne]
    rfl
  · intro e he
    have he2 : e = ⟨Dest.roomExcept rid c1, Payload.codeChange e1⟩ := by
      rw [hchar1] at he
      simpa using he
    subst he2
    simp [deliversTo]
  · have hget1 : mapGet (codeChangeEvent st c1 e1).1.rooms rid =
        some ({ (mapGet st.rooms rid).getD emptyRoom with code := e1 }) := by
      rw [hchar1]
      exact mapGet_mapSet_self _ _ _
    have hhas1 : mapHas (codeChangeEvent st c1 e1).1.rooms rid = true := by
      rw [mapHas_eq_isSome, hget1]
      rfl
    have hl2 : lookupRoomId (codeChangeEvent st c1 e1).1 c2 = some rid :=
      lookupRoomId_of_registered (by rw [hs]; exact h2) hne
    have hchar2 := codeChangeEvent_hit e2 hl2 hne hhas1
    rw [hchar2]
    show mapGet (mapSet (codeChangeEvent st c1 e1).1.rooms rid _) rid = _
    rw [mapGet_mapSet_self]
    rw [hget1]
    rfl

/-- Two-member room used by several witnesses. -/
def stTwo : ServerState :=
  run [Event.join "s1" "alice" "r1", Event.join "s2" "bob" "r1"]

theorem code_change_last_writer_wins_witness :
    mapGet ((codeChangeEvent (codeChangeEvent stTwo "s1" "x=1").1 "s2" "y=2").1).rooms "r1" =
      some ⟨[("s1", ⟨"s1", "alice", none, ["s1"]⟩),
             ("s2", ⟨"s2", "bob", none, ["s2"]⟩)], "y=2"⟩ ∧
    deliversTo (codeChangeEvent stTwo "s1" "x=1").1
      ⟨Dest.roomExcept "r1" "s1", Payload.codeChange "x=1"⟩ "s2" = true := by
  have h := code_change_last_writer_wins stTwo "s1" "s2" "r1" "x=1" "y=2"
    (by decide) (by decide) (by decide) (by decide)
  exact ⟨h.2.2.2.trans (by decide), h.2.1 "s2" (by decide) (by decide)⟩

/-- C8: a chat message from a connection registered to an existing room
whose member map contains that connection is forwarded with its username
and sender overwritten server-side from the stored display name and the
socket id; it is sent to every other connection in the socket.io room and
is never delivered back to the sender. -/
theorem chat_message_stamped (st : ServerState) (sid rid : String)
    {u : UserRec} (m : ChatMsg) (now : String)
    (hreg : mapGet st.socketToRoomMap sid = some rid) (hne : rid ≠ "")
    (hhas : mapHas st.rooms rid = true)
    (hu : mapGet ((mapGet st.rooms rid).getD emptyRoom).users sid = some u) :
    chatMessageEvent st sid m now =
      (st, [⟨Dest.roomExcept rid sid, Payload.chatMessage
        ({ m with
            username := u.username,
            sender := sid,
            timestamp := if m.timestamp == "" then now else m.timestamp })⟩]) ∧
    (∀ d : String, (roomSockets st rid).contains d = true → d ≠ sid →
      deliversTo st
        ⟨Dest.roomExcept rid sid, Payload.chatMessage
          ({ m with
              username := u.username,
              sender := sid,
              timestamp := if m.timestamp == "" then now else m.timestamp })⟩ d
        = true) ∧
    (∀ e ∈ (chatMessageEvent st sid m now).2, deliversTo st e sid = false) := by
  have hl := lookupRoomId_of_registered hreg hne
  have hchar := chatMessageEvent_hit m now hl hne hhas hu
  refine ⟨hchar, ?_, ?_⟩
  · intro d hd hdc
    have hbne : (d != sid) = true := by simpa using hdc
    show ((roomSockets st rid).contains d && (d != sid)) = true
    rw [hd, hbne]
    rfl
  · intro e he
    have he2 : e = ⟨Dest.roomExcept rid sid, Payload.chatMessage
        ({ m with
            username := u.username,
            sender := sid,
            timestamp := if m.timestamp == "" then now else m.timestamp })⟩ := by
      rw [hchar] at he
      simpa using he
    subst he2
    simp [deliversTo]

theorem chat_message_stamped_witness :
    chatMessageEvent stTwo "s1" ⟨"m1", "hello", "spoofed", "fake-sender", ""⟩ "t0" =
      (stTwo, [⟨Dest.roomExcept "r1" "s1", Payload.chatMessage
        ⟨"m1", "hello", "alice", "s1", "t0"⟩⟩]) ∧
    deliversTo stTwo
      ⟨Dest.roomExcept "r1" "s1", Payload.chatMessage
        ⟨"m1", "hello", "alice", "s1", "t0"⟩⟩ "s1" = false := by
  have h := chat_message_stamped stTwo "s1" "r1"
    (u := ⟨"s1", "alice", none, ["s1"]⟩)
    ⟨"m1", "hello", "spoofed", "fake-sender", ""⟩ "t0"
    (by decide) (by decide) (by decide) (by decide)
  refine ⟨h.1.trans (by decide), ?_⟩
  have h3 := h.2.2
  have hmem : (⟨Dest.roomExcept "r1" "s1", Payload.chatMessage
      ⟨"m1", "hello", "alice", "s1", "t0"⟩⟩ : Emit)
      ∈ (chatMessageEvent stTwo "s1" ⟨"m1", "hello", "spoofed", "fake-sender", ""⟩ "t0").2 := by
    rw [h.1]
    simp
  exact h3 _ hmem

/-- A state holding one member record with two live connections
(`sockets = [s1, s2]`), the shape the disconnect handler's
still-has-connections branch expects. -/
def stMulti : ServerState :=
  ⟨[("r1", ⟨[("s1", ⟨"s1", "alice", none, ["s1", "s2"]⟩)], ""⟩)],
   [], [("s2", "r1")], [("s1", ["r1"]), ("s2", ["r1"])]⟩

/-- C5 counterexample: disconnecting `s2`, one of two connections of the
record keyed `s1`, fires no `userLeft` event — but the user list IS
recomputed and rebroadcast to the room (the whole emission list is exactly
that broadcast), and the record remains with its other connection.  This
refutes the part of the claim that says the presence list is not
rebroadcast. -/
theorem disconnect_remaining_conn_counterexample :
    (disconnectEvent stMulti "s2").2 =
      [⟨Dest.room "r1", Payload.userList [⟨"s1", "alice", none⟩]⟩] ∧
    mapGet ((mapGet (disconnectEvent stMulti "s2").1.rooms "r1").getD emptyRoom).users "s1"
      = some ⟨"s1", "alice", none, ["s1"]⟩ :=
  ⟨by decide, by decide⟩

/-- C5 amended: when the disconnect scan finds a member record whose socket
list does not become empty, no `userLeft` event fires, but the user list IS
recomputed and rebroadcast to the room (the `userList` broadcast of the
disconnect handler runs whenever a record matched, regardless of the
remove-completely flag). -/
theorem disconnect_remaining_conn_rebroadcasts (st : ServerState)
    (sid rid : String) (fnd : String × UserRec)
    (h : mapGet st.socketToRoomMap sid = some rid) (hne : rid ≠ "")
    (hhas : mapHas st.rooms rid = true)
    (hscan : (discScan sid ((mapGet st.rooms rid).getD emptyRoom).users).2.1 = some fnd)
    (hrc : (discScan sid ((mapGet st.rooms rid).getD emptyRoom).users).2.2 = false) :
    (disconnectEvent st sid).2 =
      [⟨Dest.room rid, Payload.userList
        ((jsDedupBy (fun u => u.username)
          (((discScan sid ((mapGet st.rooms rid).getD emptyRoom).users).1).map
            Prod.snd)).map entryOf)⟩] ∧
    (∀ e ∈ (disconnectEvent st sid).2, ∀ un : String,
      e.payload ≠ Payload.userLeft un) := by
  have hchar := disconnectEvent_found h hne hhas hscan
  have hemits : (disconnectEvent st sid).2 =
      [⟨Dest.room rid, Payload.userList
        ((jsDedupBy (fun u => u.username)
          (((discScan sid ((mapGet st.rooms rid).getD emptyRoom).users).1).map
            Prod.snd)).map entryOf)⟩] := by
    rw [hchar, hrc]
    simp
  refine ⟨hemits, ?_⟩
  intro e he un
  rw [hemits] at he
  have he2 : e = ⟨Dest.room rid, Payload.userList
      ((jsDedupBy (fun u => u.username)
        (((discScan sid ((mapGet st.rooms rid).getD emptyRoom).users).1).map
          Prod.snd)).map entryOf)⟩ := by
    simpa using he
  subst he2
  simp

theorem disconnect_remaining_conn_witness :
    (disconnectEvent stMulti "s2").2 =
      [⟨Dest.room "r1", Payload.userList [⟨"s1", "alice", none⟩]⟩] := by
  have h := disconnect_remaining_conn_rebroadcasts stMulti "s2" "r1"
    ("s1", ⟨"s1", "alice", none, ["s1"]⟩)
    (by decide) (by decide) (by decide) (by decide) (by decide)
  exact h.1.trans (by decide)

/-- A room state holding two members whose display names differ only in
case; the join-time uniqueness check prevents this from ever arising, so it
is not reachable, but the dedup claim quantifies over room states. -/
def stDup : ServerState :=
  ⟨[("r1", ⟨[("s1", ⟨"s1", "Alice", none, ["s1"]⟩),
            ("s2", ⟨"s2", "alice", none, ["s2"]⟩)], ""⟩)],
   [], [], []⟩

/-- C4 counterexample: the `requestUserList` trigger computes its member
list with no deduplication at all, so on a room holding `Alice` and `alice`
the emitted list contains both entries — it is not deduplicated by display
name case-insensitively, refuting the claim that every trigger emits a
case-insensitively deduplicated list for every room state. -/
theorem request_user_list_not_deduped :
    (requestUserListEvent stDup "s3" "r1").2 =
      [⟨Dest.socket "s3", Payload.userList
        [⟨"s1", "Alice", none⟩, ⟨"s2", "alice", none⟩]⟩,
       ⟨Dest.room "r1", Payload.userList
        [⟨"s1", "Alice", none⟩, ⟨"s2", "alice", none⟩]⟩] ∧
    ¬ ([(⟨"s1", "Alice", none⟩ : UserEntry), ⟨"s2", "alice", none⟩].Pairwise
        (fun a b => strLower a.username ≠ strLower b.username)) :=
  ⟨by decide, by decide⟩

theorem pairwise_imp_mem {R S : α → α → Prop} :
    ∀ {l : List α}, (∀ a ∈ l, ∀ b ∈ l, R a b → S a b) → l.Pairwise R →
      l.Pairwise S := by
  intro l
  induction l with
  | nil =>
    intro _ _
    exact List.Pairwise.nil
  | cons x xs ih =>
    intro himp hp
    obtain ⟨hx, hxs⟩ := List.pairwise_cons.mp hp
    refine List.Pairwise.cons ?_ ?_
    · intro b hb
      exact himp x (List.mem_cons_self _ _) b (List.mem_cons_of_mem _ hb)
        (hx b hb)
    · exact ih (fun a ha b hb =>
        himp a (List.mem_cons_of_mem _ ha) b (List.mem_cons_of_mem _ hb)) hxs

theorem roomWF_entries_pairwise {r : Room} (h : RoomWF r) :
    ((r.users.map Prod.snd).map entryOf).Pairwise
      (fun a b => strLower a.username ≠ strLower b.username) := by
  obtain ⟨-, hnodup, -, hnames⟩ := h
  rw [List.pairwise_map, List.pairwise_map]
  have hkeys : r.users.Pairwise (fun a b => a.1 ≠ b.1) :=
    List.pairwise_map.mp hnodup
  refine pairwise_imp_mem ?_ hkeys
  intro a ha b hb hab hlow
  exact hab (hnames a ha b hb hlow)

theorem dedup_ci_entries_pairwise (vals : List UserRec) :
    ((jsDedupBy (fun u => strLower u.username) vals).map entryOf).Pairwise
      (fun a b => strLower a.username ≠ strLower b.username) := by
  rw [List.pairwise_map]
  exact jsDedupBy_pairwise _ vals

theorem dedup_map_entry_sublist (key : UserRec → String) (vals : List UserRec) :
    ((jsDedupBy key vals).map entryOf).Sublist (vals.map entryOf) :=
  (jsDedupBy_sublist key vals).map entryOf

theorem step_connect (st : ServerState) (sid c r : String) :
    step st (Event.connect sid c r) = connectEvent st sid c r := rfl

theorem connectEvent_emits (st : ServerState) (sid c r : String) :
    (connectEvent st sid c r).2 =
      [⟨Dest.socket sid, Payload.connectionEstablished sid⟩] := rfl

theorem step_join (st : ServerState) (sid name rid : String) :
    step st (Event.join sid name rid) = joinRoom st sid name rid := rfl

theorem step_peer (st : ServerState) (sid p : String) :
    step st (Event.peer sid p) = peerIdEvent st sid p := rfl

theorem step_edit (st : ServerState) (sid c : String) :
    step st (Event.edit sid c) = codeChangeEvent st sid c := rfl

theorem step_chat (st : ServerState) (sid : String) (m : ChatMsg) (now : String) :
    step st (Event.chat sid m now) = chatMessageEvent st sid m now := rfl

theorem step_reqList (st : ServerState) (sid rid : String) :
    step st (Event.reqList sid rid) = requestUserListEvent st sid rid := rfl

theorem step_disc (st : ServerState) (sid : String) :
    step st (Event.disc sid) = disconnectEvent st sid := rfl

theorem disconnectEvent_found_reachable {st : ServerState} {sid rid : String}
    {room : Room} (hinv : Inv st)
    (hlk : mapGet st.socketToRoomMap sid = some rid) (hne : rid ≠ "")
    (hroom : mapGet st.rooms rid = some room)
    (hsid : sid ∈ room.users.map Prod.fst) :
    ∃ u : UserRec,
      (sid, u) ∈ room.users ∧
      disconnectEvent st sid =
        (cleanupState ({ st with rooms :=
            (if (mapDelete room.users sid).isEmpty
              then mapDelete st.rooms rid
              else mapSet st.rooms rid
                ({ room with users := mapDelete room.users sid })) }) sid,
         [⟨Dest.room rid, Payload.userLeft u.username⟩,
          ⟨Dest.room rid, Payload.userList
            ((jsDedupBy (fun u2 => u2.username)
              ((mapDelete room.users sid).map Prod.snd)).map entryOf)⟩]) := by
  have hhas : mapHas st.rooms rid = true := by
    rw [mapHas_eq_isSome, hroom]
    rfl
  obtain ⟨hne2, hnodup, hrec, hnames⟩ := hinv (rid, room) (mem_of_mapGet_eq_some hroom)
  obtain ⟨q0, hq0, hq0k⟩ := List.mem_map.mp hsid
  have hq0mem : (sid, q0.2) ∈ room.users := by
    have heq : q0 = (sid, q0.2) := by rw [← hq0k]
    rw [← heq]
    exact hq0
  have hscan := discScan_of_key_mem (fun q hq => (hrec q hq).2) hnodup hq0mem
  have hreduce : discScan sid ((mapGet st.rooms rid).getD emptyRoom).users
      = (room.users.map (fun q =>
          if q.1 == sid then (q.1, { q.2 with sockets := [] }) else q),
         some (sid, { q0.2 with sockets := [] }), true) := by
    rw [hroom]
    exact hscan
  have hscan2 : (discScan sid ((mapGet st.rooms rid).getD emptyRoom).users).2.1
      = some (sid, { q0.2 with sockets := [] }) := by
    rw [hreduce]
  have husers2 : mapDelete (room.users.map (fun q =>
      if q.1 == sid then (q.1, { q.2 with sockets := [] }) else q)) sid
      = mapDelete room.users sid := by
    apply mapDelete_map_of_keyfix
    · intro q
      by_cases hq : (q.1 == sid) = true <;> simp [hq]
    · intro q hq
      have hq2 : (q.1 == sid) = false := by simpa using hq
      simp [hq2]
  refine ⟨q0.2, hq0mem, ?_⟩
  rw [disconnectEvent_found hlk hne hhas hscan2, hreduce]
  simp only [if_true, husers2]
  rw [hroom]
  rfl

/-- C4 amended: in every reachable state, every user-list payload the
service emits while handling any event is deduplicated by display name
case-insensitively (no two entries share a lowered username) and lists
members in first-seen insertion order (it is an in-order sublist of the
post-state room's member projection).  Only the joinRoom broadcast applies
a case-insensitive dedup filter — the disconnect broadcast filters
case-sensitively and the peer-id and requestUserList broadcasts apply no
filter — but the join-time uniqueness check keeps every reachable room's
names case-insensitively unique, so every trigger's output is
deduplicated. -/
theorem member_lists_deduped (st : ServerState) (h : Reachable st) (e : Event) :
    ∀ em ∈ (step st e).2, ∀ l : List UserEntry, em.payload = Payload.userList l →
      l.Pairwise (fun a b => strLower a.username ≠ strLower b.username) ∧
      (l = [] ∨ ∃ p ∈ (step st e).1.rooms,
        l.Sublist ((p.2.users.map Prod.snd).map entryOf)) := by
  have hinv : Inv st := inv_reachable h
  cases e with
  | connect sid c r =>
    intro em hem l hl
    rw [step_connect, connectEvent_emits] at hem
    have hem2 : em = ⟨Dest.socket sid, Payload.connectionEstablished sid⟩ := by
      simpa using hem
    subst hem2
    simp at hl
  | join sid name rid =>
    intro em hem l hl
    rw [step_join] at hem ⊢
    rcases ht : joinTaken st sid name rid with _ | _
    · rw [joinRoom_success ht] at hem ⊢
      simp only [List.mem_cons, List.not_mem_nil, or_false] at hem
      rcases hem with rfl | rfl | rfl | rfl
      · simp at hl
      · have hl2 : l = (jsDedupBy (fun u => strLower u.username)
            ((joinedRoomState st sid name rid).users.map Prod.snd)).map entryOf := by
          simpa using hl.symm
        subst hl2
        refine ⟨dedup_ci_entries_pairwise _, Or.inr ?_⟩
        refine ⟨(rid, joinedRoomState st sid name rid), ?_, ?_⟩
        · show (rid, _) ∈ mapSet st.rooms rid (joinedRoomState st sid name rid)
          exact mapSet_mem_self _ _ _
        · exact dedup_map_entry_sublist _ _
      · simp at hl
      · simp at hl
    · rw [joinRoom_taken ht] at hem
      have hem2 : em = ⟨Dest.socket sid, Payload.joinRejected "username_taken"
          ("Username \x22" ++ name ++
            "\x22 is already taken in this room. Please choose a different username.")⟩ := by
        simpa using hem
      subst hem2
      simp at hl
  | peer sid peer =>
    intro em hem l hl
    rw [step_peer] at hem ⊢
    rcases peerIdEvent_cases st sid peer with hc | ⟨rid, u, hlk, hne, hhas, hu, hc⟩
    · rw [hc] at hem
      simp at hem
    · rw [hc] at hem ⊢
      have hem2 : em = ⟨Dest.room rid, Payload.userList
          (((mapSet ((mapGet st.rooms rid).getD emptyRoom).users sid
            ({ u with peerId := some peer })).map Prod.snd).map entryOf)⟩ := by
        simpa using hem
      subst hem2
      have hl2 : l = ((mapSet ((mapGet st.rooms rid).getD emptyRoom).users sid
          ({ u with peerId := some peer })).map Prod.snd).map entryOf := by
        simpa using hl.symm
      subst hl2
      have hpost : Inv (peerIdEvent st sid peer).1 := inv_peerIdEvent st hinv sid peer
      rw [hc] at hpost
      have hmem2 : ((rid, ({ (mapGet st.rooms rid).getD emptyRoom with
          users := mapSet ((mapGet st.rooms rid).getD emptyRoom).users sid
            ({ u with peerId := some peer }) } : Room)))
          ∈ mapSet st.rooms rid ({ (mapGet st.rooms rid).getD emptyRoom with
              users := mapSet ((mapGet st.rooms rid).getD emptyRoom).users sid
                ({ u with peerId := some peer }) }) :=
        mapSet_mem_self _ _ _
      have hWF2 := hpost _ hmem2
      exact ⟨roomWF_entries_pairwise hWF2,
        Or.inr ⟨_, hmem2, List.Sublist.refl _⟩⟩
  | edit sid c =>
    intro em hem l hl
    rw [step_edit] at hem
    rcases codeChangeEvent_cases st sid c with hc | ⟨rid, hlk, hne, hhas, hc⟩
    · rw [hc] at hem
      simp at hem
    · rw [hc] at hem
      have hem2 : em = ⟨Dest.roomExcept rid sid, Payload.codeChange c⟩ := by
        simpa using hem
      subst hem2
      simp at hl
  | chat sid m now =>
    intro em hem l hl
    rw [step_chat] at hem
    rcases chatMessageEvent_emits st sid m now with hc | ⟨rid, m1, hc⟩
    · rw [hc] at hem
      simp at hem
    · rw [hc] at hem
      have hem2 : em = ⟨Dest.roomExcept rid sid, Payload.chatMessage m1⟩ := by
        simpa using hem
      subst hem2
      simp at hl
  | reqList sid rid =>
    intro em hem l hl
    rw [step_reqList] at hem ⊢
    by_cases hb : rid ≠ "" ∧ mapHas st.rooms rid = true
    · obtain ⟨hne, hhas⟩ := hb
      obtain ⟨room, hroom⟩ := Option.isSome_iff_exists.mp
        (by rw [← mapHas_eq_isSome]; exact hhas)
      have hWF : RoomWF room := hinv (rid, room) (mem_of_mapGet_eq_some hroom)
      rw [requestUserListEvent_hit hne hhas] at hem ⊢
      simp only [List.mem_cons, List.not_mem_nil, or_false] at hem
      have hl2 : l = (((mapGet st.rooms rid).getD emptyRoom).users.map
          Prod.snd).map entryOf := by
        rcases hem with rfl | rfl <;> simpa using hl.symm
      subst hl2
      rw [hroom]
      refine ⟨roomWF_entries_pairwise hWF,
        Or.inr ⟨(rid, room), mem_of_mapGet_eq_some hroom, List.Sublist.refl _⟩⟩
    · rw [requestUserListEvent_miss hb] at hem
      have hem2 : em = ⟨Dest.socket sid, Payload.userList []⟩ := by
        simpa using hem
      subst hem2
      have hl2 : l = [] := by simpa using hl.symm
      subst hl2
      exact ⟨List.Pairwise.nil, Or.inl rfl⟩
  | disc sid =>
    intro em hem l hl
    rw [step_disc] at hem ⊢
    rcases hlk : mapGet st.socketToRoomMap sid with _ | rid
    · rw [disconnectEvent_nolookup hlk] at hem
      simp at hem
    · by_cases hb : rid ≠ "" ∧ mapHas st.rooms rid = true
      · obtain ⟨hne, hhas⟩ := hb
        obtain ⟨room, hroom⟩ := Option.isSome_iff_exists.mp
          (by rw [← mapHas_eq_isSome]; exact hhas)
        by_cases hsid : sid ∈ room.users.map Prod.fst
        · obtain ⟨u, humem, hchar⟩ :=
            disconnectEvent_found_reachable hinv hlk hne hroom hsid
          rw [hchar] at hem ⊢
          simp only [List.mem_cons, List.not_mem_nil, or_false] at hem
          rcases hem with rfl | rfl
          · simp at hl
          · have hl2 : l = (jsDedupBy (fun u2 => u2.username)
                ((mapDelete room.users sid).map Prod.snd)).map entryOf := by
              simpa using hl.symm
            subst hl2
            by_cases hemp : (mapDelete room.users sid).isEmpty = true
            · have hnil : mapDelete room.users sid = [] := by
                rw [← List.isEmpty_iff]
                exact hemp
              rw [hnil]
              exact ⟨by simp [jsDedupBy_nil], Or.inl (by simp [jsDedupBy_nil])⟩
            · have hemp2 : (mapDelete room.users sid).isEmpty = false := by
                simpa using hemp
              have hpost : Inv (disconnectEvent st sid).1 :=
                inv_disconnectEvent st hinv sid
              rw [hchar] at hpost
              have hmem2 : ((rid, ({ room with users := mapDelete room.users sid }
                  : Room))) ∈ (cleanupState ({ st with rooms :=
                    (if (mapDelete room.users sid).isEmpty
                      then mapDelete st.rooms rid
                      else mapSet st.rooms rid
                        ({ room with users := mapDelete room.users sid })) }) sid).rooms := by
                show (rid, _) ∈ (if (mapDelete room.users sid).isEmpty
                  then mapDelete st.rooms rid
                  else mapSet st.rooms rid
                    ({ room with users := mapDelete room.users sid }))
                rw [hemp2]
                simp only [Bool.false_eq_true, if_false]
                exact mapSet_mem_self _ _ _
              have hWF2 := hpost _ hmem2
              exact ⟨List.Pairwise.sublist (dedup_map_entry_sublist _ _)
                  (roomWF_entries_pairwise hWF2),
                Or.inr ⟨_, hmem2, dedup_map_entry_sublist _ _⟩⟩
        · have hnomatch : ∀ q ∈ room.users, sid ∉ q.2.sockets := by
            intro q hq
            rw [((hinv (rid, room) (mem_of_mapGet_eq_some hroom)).2.2.1 q hq).2]
            intro hcontra
            have hqs : q.1 = sid := by
              have h4 := hcontra
              simp at h4
              exact h4.symm
            exact hsid (hqs ▸ List.mem_map_of_mem Prod.fst hq)
          have hscan2 : (discScan sid ((mapGet st.rooms rid).getD emptyRoom).users).2.1
              = none := by
            rw [hroom]
            simp only [Option.getD_some]
            rw [discScan_nomatch hnomatch]
          rw [disconnectEvent_nomatch hlk hne hhas hscan2] at hem
          simp at hem
      · rw [disconnectEvent_noroom hlk hb] at hem
        simp at hem

theorem member_lists_deduped_witness :
    ([(⟨"s1", "alice", none⟩ : UserEntry)]).Pairwise
      (fun a b => strLower a.username ≠ strLower b.username) := by
  have h := member_lists_deduped stAlice ⟨[Event.join "s1" "alice" "r1"], rfl⟩
    (Event.reqList "s1" "r1")
    ⟨Dest.socket "s1", Payload.userList [⟨"s1", "alice", none⟩]⟩
    (by decide) [⟨"s1", "alice", none⟩] rfl
  exact h.1

end RoomService
